import Mathlib

/-!
Verification of the `punk` parser-combinator library (`src/lib.rs`).

The library defines a trait `Parser<'a>` whose single method is
`call(&self, input: &'a str) -> Option<(Self::Out, &'a str)>`, together with
the primitive parsers `Zero`, `Return`, `Item`, the combinators `Map` and
`Bind`, and the repetition combinator `Take`.

Embedding choices:
* A Rust `&str` is the sequence of Unicode characters it holds, modelled as
  `List Char` (the `Input` type below).
* A parser value is identified with its `call` method, a total function
  `Input → Option (Out × Input)` (`ParserFn` below); each Rust
  `impl Parser for X` is translated as a Lean function `X.call`.
* The one place in the library that can panic — the byte-slice `&input[1..]`
  inside `Item::call`, which panics when byte offset 1 is not a character
  boundary — is modelled explicitly: `Item.call` returns
  `Except RustPanic (ParseOutcome Char)` with `.error` standing for the panic.
  All other `call` implementations are panic-free and are modelled as total
  functions on `Input`.
-/

/-- Rust `&'a str`, viewed as its sequence of Unicode characters. -/
abbrev Input := List Char

/-- Rust `Option<(Out, &'a str)>`, the result type of `Parser::call`. -/
abbrev ParseOutcome (A : Type) := Option (A × Input)

/-- A parser, identified with its `call` method. -/
abbrev ParserFn (A : Type) := Input → ParseOutcome A

/-- Rust `impl<'a, A> Parser<'a> for Zero<A>`: `fn call` always returns `None`. -/
def Zero.call {A : Type} : ParserFn A := fun _ => none

/-- Rust `impl<'a, 'b, A> Parser<'a> for Return<'b, A>`: `fn call` returns
`Some((self.data.to_owned(), input))` — it always succeeds with the stored
value (`to_owned` duplicates it) and the unchanged input. -/
def Return.call {A : Type} (data : A) : ParserFn A :=
  fun input => some (data, input)

/-- Rust `impl<'a, P, F, A> Parser<'a> for Map<P, F>`: `fn call` is
`self.parser.call(input).map(|(a, b)| ((self.func)(a), b))`. -/
def Map.call {A B : Type} (parser : ParserFn A) (func : A → B) : ParserFn B :=
  fun input => (parser input).map (fun ab => (func ab.1, ab.2))

/-- Rust `impl<'a, P, F, Q> Parser<'a> for Bind<P, F>`: `fn call` is
`self.parser.call(input).and_then(|(a, b)| (self.func)(a).call(b))`. -/
def Bind.call {A B : Type} (parser : ParserFn A) (func : A → ParserFn B) :
    ParserFn B :=
  fun input => (parser input).bind (fun ab => func ab.1 ab.2)

/-- A Rust panic raised inside a `call` implementation. The only panic site in
the library is the byte slice `&input[1..]` in `Item::call`, which panics when
byte index 1 does not lie on a UTF-8 character boundary of `input`. -/
inductive RustPanic where
  | sliceNotCharBoundary
deriving DecidableEq

/-- Rust `impl<'a> Parser<'a> for Item`: `fn call` is
`input.chars().next().map(|c| (c, &input[1..]))`.

`input.chars().next()` yields the first character when the input is non-empty.
The remainder is computed by the BYTE slice `&input[1..]`: when the first
character occupies exactly one byte in UTF-8 (`c.utf8Size = 1`) this removes
exactly that character, but when it occupies more than one byte, byte index 1
is not a character boundary and the slice panics (modelled as `.error`). On
empty input the closure is never evaluated and the result is `None`. -/
def Item.call (input : Input) : Except RustPanic (ParseOutcome Char) :=
  match input with
  | [] => .ok none
  | c :: rest =>
    if c.utf8Size = 1 then .ok (some (c, rest))
    else .error .sliceNotCharBoundary

/-- The loop of `impl<'a, P> Parser<'a> for Take<P>`: `fn call` pushes each
produced item onto the vector `v` and advances the cursor `rest`; the first
`None` from the inner parser aborts the whole call with `None`. The `Nat`
argument counts the remaining iterations of `for _ in 0..self.count`. -/
def Take.loop {A : Type} (parser : ParserFn A) :
    Nat → Input → List A → ParseOutcome (List A)
  | 0, rest, v => some (v, rest)
  | n + 1, rest, v =>
    match parser rest with
    | none => none
    | some (item, string) => Take.loop parser n string (v ++ [item])

/-- Rust `impl<'a, P> Parser<'a> for Take<P>`: the field `count` has Rust type
`i32`, and `for _ in 0..self.count` executes `max count 0 = count.toNat`
iterations (a Rust range with `start >= end` yields nothing). -/
def Take.call {A : Type} (count : Int) (parser : ParserFn A) :
    ParserFn (List A) :=
  fun input => Take.loop parser count.toNat input []

/-- Specification of `count` successive applications of a parser: apply
`parser`, then recurse on the remainder, collecting the produced values in
order; the result is `none` as soon as one application fails. Used to state
the hypotheses "all `count` successive applications succeed" and "the inner
parser fails at step `i`". -/
def runs {A : Type} (parser : ParserFn A) : Nat → ParserFn (List A)
  | 0 => fun s => some ([], s)
  | n + 1 => fun s =>
    (parser s).bind fun ar =>
      (runs parser n ar.2).map fun vr => (ar.1 :: vr.1, vr.2)

/-- Modelled from the spec: finite repetition expressed purely in terms of
`Return`, `Bind` and the inner parser — "fold `bind` over `count` repetitions
accumulating into a growing sequence". -/
def takeViaBind {A : Type} (parser : ParserFn A) : Nat → ParserFn (List A)
  | 0 => Return.call []
  | n + 1 =>
    Bind.call parser fun a =>
      Bind.call (takeViaBind parser n) fun v => Return.call (a :: v)

/-- A concrete single-character test parser, used only to instantiate the
universally quantified theorems below on concrete inputs. -/
def anyChar : ParserFn Char
  | [] => none
  | c :: rest => some (c, rest)

/-! ### Helper lemmas -/

lemma take_loop_eq_runs {A : Type} (p : ParserFn A) :
    ∀ (n : Nat) (s : Input) (v : List A),
      Take.loop p n s v = (runs p n s).map (fun x => (v ++ x.1, x.2)) := by
  intro n
  induction n with
  | zero => intro s v; simp [Take.loop, runs]
  | succ n ih =>
    intro s v
    cases h : p s with
    | none => simp [Take.loop, runs, h]
    | some ar =>
      obtain ⟨a, srest⟩ := ar
      simp only [Take.loop, runs, h, Option.some_bind]
      rw [ih srest (v ++ [a])]
      cases runs p n srest with
      | none => rfl
      | some vr => simp

lemma runs_length {A : Type} (p : ParserFn A) :
    ∀ (n : Nat) (s : Input) (vs : List A) (rest : Input),
      runs p n s = some (vs, rest) → vs.length = n := by
  intro n
  induction n with
  | zero =>
    intro s vs rest h
    simp only [runs, Option.some.injEq, Prod.mk.injEq] at h
    rw [← h.1]
    rfl
  | succ n ih =>
    intro s vs rest h
    cases hp : p s with
    | none => simp [runs, hp] at h
    | some ar =>
      obtain ⟨a, srest⟩ := ar
      cases hr : runs p n srest with
      | none => simp [runs, hp, hr] at h
      | some vr =>
        obtain ⟨v1, v2⟩ := vr
        simp only [runs, hp, hr, Option.some_bind, Option.map_some',
          Option.some.injEq, Prod.mk.injEq] at h
        rw [← h.1]
        simp [ih srest v1 v2 hr]

lemma runs_none_of_fail {A : Type} (p : ParserFn A) :
    ∀ (i : Nat) (s : Input) (vs : List A) (si : Input),
      runs p i s = some (vs, si) → p si = none →
      ∀ count : Nat, i < count → runs p count s = none := by
  intro i
  induction i with
  | zero =>
    intro s vs si h hfail count hlt
    cases count with
    | zero => exact absurd hlt (by omega)
    | succ c =>
      have hs : si = s := by
        simp only [runs, Option.some.injEq, Prod.mk.injEq] at h
        exact h.2.symm
      subst hs
      simp [runs, hfail]
  | succ i ih =>
    intro s vs si h hfail count hlt
    cases count with
    | zero => exact absurd hlt (by omega)
    | succ c =>
      cases hp : p s with
      | none => simp [runs, hp]
      | some ar =>
        obtain ⟨a, srest⟩ := ar
        cases hr : runs p i srest with
        | none => simp [runs, hp, hr] at h
        | some vr =>
          obtain ⟨v1, v2⟩ := vr
          simp only [runs, hp, hr, Option.some_bind, Option.map_some',
            Option.some.injEq, Prod.mk.injEq] at h
          have hsi : v2 = si := h.2
          have hcnone := ih srest v1 si (by rw [hr, hsi]) hfail c (by omega)
          simp [runs, hp, hcnone]

lemma takeViaBind_eq_runs {A : Type} (p : ParserFn A) :
    ∀ (n : Nat) (s : Input), takeViaBind p n s = runs p n s := by
  intro n
  induction n with
  | zero => intro s; rfl
  | succ n ih =>
    intro s
    cases hp : p s with
    | none => simp [takeViaBind, runs, Bind.call, hp]
    | some ar =>
      obtain ⟨a, srest⟩ := ar
      simp only [takeViaBind, runs, Bind.call, Return.call, hp,
        Option.some_bind]
      rw [ih srest]
      cases runs p n srest with
      | none => rfl
      | some vr => rfl

/-! ### Claim theorems -/

/-- Claim C1. The claim states that for every non-empty input string,
`Item.call` succeeds with the first symbol and the input minus that symbol,
and fails on empty input. This holds for the empty input and for inputs whose
first character is a single UTF-8 byte, but the code PANICS (byte slice
`&input[1..]` out of character boundary) whenever the first character occupies
more than one byte: on `"λx"` the call neither succeeds nor fails — it
panics. -/
theorem item_call_first_symbol_evaluated :
    Item.call [] = .ok none ∧
    Item.call ('h' :: "ello".toList) = .ok (some ('h', "ello".toList)) ∧
    Item.call ['λ', 'x'] = .error RustPanic.sliceNotCharBoundary :=
  ⟨rfl, rfl, rfl⟩

/-- Claim C2. If all `count` successive applications of the inner parser
succeed (producing values `vs` and final remainder `rest`), then
`Take(count, parser).call` succeeds with exactly that ordered sequence, of
length exactly `count`, paired with that remainder. -/
theorem take_call_success (count : Nat) {A : Type} (p : ParserFn A)
    (s : Input) (vs : List A) (rest : Input)
    (h : runs p count s = some (vs, rest)) :
    Take.call count p s = some (vs, rest) ∧ vs.length = count := by
  constructor
  · show Take.loop p (Int.toNat count) s [] = some (vs, rest)
    rw [Int.toNat_natCast, take_loop_eq_runs, h]
    rfl
  · exact runs_length p count s vs rest h

/-- Witness for C2: `Take(3, anyChar)` on `"hello"` yields
`(['h','e','l'], "lo")`. -/
theorem take_call_success_witness :
    Take.call 3 anyChar "hello".toList
        = some (['h', 'e', 'l'], "lo".toList) ∧
      (['h', 'e', 'l'] : List Char).length = 3 :=
  take_call_success 3 anyChar "hello".toList ['h', 'e', 'l'] "lo".toList
    (by decide)

/-- Claim C3. If the inner parser fails at some step `i < count` (the first
`i` applications succeed, reaching remainder `si`, and the parser fails on
`si`), then the whole `Take(count, parser).call` fails: the caller observes
`None` — no partial sequence and no partially-advanced input. -/
theorem take_call_atomic_failure (count : Nat) {A : Type} (p : ParserFn A)
    (s : Input) (i : Nat) (vs : List A) (si : Input)
    (hruns : runs p i s = some (vs, si)) (hfail : p si = none)
    (hlt : i < count) :
    Take.call count p s = none := by
  show Take.loop p (Int.toNat count) s [] = none
  rw [Int.toNat_natCast, take_loop_eq_runs,
    runs_none_of_fail p i s vs si hruns hfail count hlt]
  rfl

/-- Witness for C3: `Take(3, anyChar)` on `"he"` fails (the third application
finds empty input). -/
theorem take_call_atomic_failure_witness :
    Take.call 3 anyChar "he".toList = none :=
  take_call_atomic_failure 3 anyChar "he".toList 2 ['h', 'e'] []
    (by decide) rfl (by decide)

/-- Claim C4. A negative `count` is treated as zero: `for _ in 0..count`
performs no iterations when `count < 0`, so `Take(count, parser).call`
succeeds with the empty sequence and the unchanged input, for every parser
and every input. -/
theorem take_call_negative_count {A : Type} (count : Int) (hneg : count < 0)
    (p : ParserFn A) (s : Input) :
    Take.call count p s = some ([], s) := by
  show Take.loop p count.toNat s [] = some ([], s)
  rw [Int.toNat_eq_zero.mpr (le_of_lt hneg)]
  rfl

/-- Witness for C4: `Take(-1, anyChar)` on `"abc"` succeeds with `([], "abc")`. -/
theorem take_call_negative_count_witness :
    Take.call (-1) anyChar "abc".toList = some ([], "abc".toList) :=
  take_call_negative_count (-1) (by decide) anyChar "abc".toList

/-- Claim C5. `Take(0, parser).call` succeeds immediately with the empty
sequence and consumes nothing, for every inner parser and every input,
independently of the inner parser's behaviour. -/
theorem take_call_zero_count {A : Type} (p : ParserFn A) (s : Input) :
    Take.call 0 p s = some ([], s) := rfl

/-- Claim C6. `Bind(parser, f).call`: on success of `parser` with value `a`
and remainder `rest`, the result is `f a` run on `rest`; on failure of
`parser` the result is `None`, and `f` is never consulted — the outcome is
the same for every continuation. -/
theorem bind_call_semantics {A B : Type} (p : ParserFn A)
    (f : A → ParserFn B) (s : Input) :
    (∀ (a : A) (rest : Input), p s = some (a, rest) →
      Bind.call p f s = f a rest) ∧
    (p s = none →
      Bind.call p f s = none ∧
      ∀ g : A → ParserFn B, Bind.call p f s = Bind.call p g s) := by
  constructor
  · intro a rest h
    show (p s).bind (fun ab => f ab.1 ab.2) = f a rest
    rw [h, Option.some_bind]
  · intro h
    constructor
    · show (p s).bind (fun ab => f ab.1 ab.2) = none
      rw [h, Option.none_bind]
    · intro g
      show (p s).bind (fun ab => f ab.1 ab.2)
          = (p s).bind (fun ab => g ab.1 ab.2)
      rw [h, Option.none_bind, Option.none_bind]

/-- Witness for C6: on `"hi"`, binding `anyChar` into a `Return` continuation
runs the continuation on the remainder; binding `Zero` fails. -/
theorem bind_call_semantics_witness :
    Bind.call anyChar (fun c => Return.call (c, c)) "hi".toList
        = Return.call ('h', 'h') "i".toList ∧
      Bind.call (Zero.call (A := Char)) (fun c => Return.call (c, c)) []
        = none :=
  ⟨(bind_call_semantics anyChar (fun c => Return.call (c, c))
      "hi".toList).1 'h' "i".toList rfl,
    ((bind_call_semantics (Zero.call (A := Char))
      (fun c => Return.call (c, c)) []).2 rfl).1⟩

/-- Claim C7. Monad left identity: `bind(Return(v), f).call(s) = f(v).call(s)`
for every value, continuation and input. -/
theorem bind_return_left_identity {A B : Type} (v : A)
    (f : A → ParserFn B) (s : Input) :
    Bind.call (Return.call v) f s = f v s := rfl

/-- Claim C8. Monad associativity:
`bind(bind(p, f), g).call(s) = bind(p, a => bind(f(a), g)).call(s)` for every
parser, continuations and input. -/
theorem bind_associativity {A B C : Type} (p : ParserFn A)
    (f : A → ParserFn B) (g : B → ParserFn C) (s : Input) :
    Bind.call (Bind.call p f) g s
      = Bind.call p (fun a => Bind.call (f a) g) s := by
  show ((p s).bind _).bind _ = (p s).bind _
  cases p s with
  | none => rfl
  | some ar => rfl

/-- Claim C9. The loop-based `Take` agrees with finite repetition built
purely from `Return` and `Bind`: for every `count ≥ 0`, inner parser and
input, `Take(count, parser).call` equals the fold of `bind` over `count`
repetitions of the parser. -/
theorem take_call_eq_bind_fold (count : Nat) {A : Type} (p : ParserFn A)
    (s : Input) :
    Take.call count p s = takeViaBind p count s := by
  show Take.loop p (Int.toNat count) s [] = takeViaBind p count s
  rw [Int.toNat_natCast, take_loop_eq_runs, takeViaBind_eq_runs]
  cases runs p count s with
  | none => rfl
  | some x => rfl

/-- Claim C10. The claim states `Item.call` is total and never panics, even
when the first character of the input occupies more than one byte in UTF-8.
It is refuted by the code: on `"éa"` ('é' = U+00E9 occupies two bytes), the
slice `&input[1..]` falls inside the first character's encoding and the call
panics. -/
theorem item_call_panics_on_multibyte :
    Item.call ['é', 'a'] = .error RustPanic.sliceNotCharBoundary := rfl
